import Mathlib

/-!
# argo-messaging: a verification development

Shallow embedding of

* `main` (src/main.go) as the trace of effects it performs, with Go's `defer`
  and `log.Fatal` (which ends the process through `os.Exit(1)` and therefore
  runs no deferred call);
* `Rdns_to_String` (src/auth/certificate.go) over Go strings, which are byte
  sequences iterated by `range` as UTF-8 code points;
* the push worker of the delivery engine, whose code is not part of the source
  tree at hand and is modelled from the specification, over the subscription
  record `QSub` (src/stores/query_models.go).
-/

namespace ArgoMessaging

/-! ## Part 1: `main` as a trace of effects -/

/-- The calls `main` and `load_CAs` make, in the order of src/main.go, that are
visible from outside; `LogFatal` is `log.Fatal`/`log.Fatalf` writing its entry
and `OsExit` the `os.Exit(1)` it ends with. -/
inductive Effect
  | NewAPICfg
  | NewMongoStore
  | StoreInit
  | NewKafkaBroker
  | CloseConnections
  | NewHTTPSender
  | NewManager
  | LoadPushSubs
  | StartAll
  | NewRouting
  | LogInfo
  | WalkCAs
  | ListenAndServeTLS
  | LogFatal
  | OsExit
  deriving DecidableEq, Repr

/-- The statements `main` is made of. -/
inductive Stmt
  /-- A call that returns to its caller. -/
  | call (e : Effect)
  /-- The statement `defer e()`: the call is pushed and runs when the function returns. -/
  | deferCall (e : Effect)
  /-- The statement `if cond { log.Fatal(...) }`. -/
  | fatalIf (cond : Bool)
  deriving DecidableEq, Repr

/-- Runs a function body. `tr` is the trace so far, `ds` the stack of deferred
calls (latest first). At the end of the body the function returns and its
deferred calls run, latest first. `log.Fatal` writes the entry and calls
`os.Exit(1)`: the process ends at once and no deferred call runs. -/
def execStmts : List Stmt → List Effect → List Effect → List Effect
  | [], tr, ds => tr ++ ds
  | Stmt.call e :: rest, tr, ds => execStmts rest (tr ++ [e]) ds
  | Stmt.deferCall e :: rest, tr, ds => execStmts rest tr (e :: ds)
  | Stmt.fatalIf c :: rest, tr, ds =>
    if c then tr ++ [Effect.LogFatal, Effect.OsExit] else execStmts rest tr ds

/-- What the surroundings answer to `main`: whether `filepath.Walk` meets a path
it cannot access (the callback of `load_CAs` then calls `log.Fatalf`), whether
the walk ends with an error (a certificate that does not parse), and whether
`ListenAndServeTLS` returns an error. -/
structure MainEnv where
  caAccessErr : Bool
  caWalkErr : Bool
  listenErr : Bool
  deriving DecidableEq, Repr

/-- Body of `load_CAs` (src/main.go lines 63-95); it defers nothing, so its
statements run inside the caller's sequence. -/
def load_CAs (env : MainEnv) : List Stmt :=
  [ Stmt.call Effect.LogInfo,
    Stmt.call Effect.WalkCAs,
    Stmt.fatalIf env.caAccessErr,
    Stmt.fatalIf env.caWalkErr,
    Stmt.call Effect.LogInfo ]

/-- Body of `main` (src/main.go lines 21-60). -/
def mainBody (env : MainEnv) : List Stmt :=
  [ Stmt.call Effect.NewAPICfg,
    Stmt.call Effect.NewMongoStore,
    Stmt.call Effect.StoreInit,
    Stmt.call Effect.NewKafkaBroker,
    Stmt.deferCall Effect.CloseConnections,
    Stmt.call Effect.NewHTTPSender,
    Stmt.call Effect.NewManager,
    Stmt.call Effect.LoadPushSubs,
    Stmt.call Effect.StartAll,
    Stmt.call Effect.NewRouting ]
  ++ load_CAs env ++
  [ Stmt.call Effect.ListenAndServeTLS,
    Stmt.fatalIf env.listenErr ]

/-- The trace of effects of one run of `main`. -/
def main (env : MainEnv) : List Effect :=
  execStmts (mainBody env) [] []

/-- Number of times the broker's `CloseConnections` is called in a run. -/
def closeCount (env : MainEnv) : Nat :=
  (main env).count Effect.CloseConnections

/-! ## Part 2: Go strings, runes and the helpers of `Rdns_to_String` -/

/-- A Go `byte`. -/
abbrev Byte := UInt8

/-- A Go `string`: a read-only sequence of bytes, not necessarily valid UTF-8. -/
abbrev GoString := List Byte

/-- A Go `rune` (only the non-negative values occur here). -/
abbrev Rune := Nat

/-- The replacement character U+FFFD, `utf8.RuneError`. -/
def RuneError : Rune := 0xFFFD

/-- Continuation byte test `locb <= b && b <= hicb` of the Go runtime. -/
def isCont (b : Byte) : Bool := 0x80 ≤ b.toNat && b.toNat ≤ 0xBF

/-- The Go runtime's `decoderune` at the head of `s`, as (rune, bytes consumed).
Masks are written as remainders (`b & 0x1F` is `b % 32`), shifts of the disjoint
bit fields as products and `|` as `+`. An invalid or truncated sequence gives
U+FFFD and a width of one byte. -/
def decoderune : GoString → Rune × Nat
  | [] => (RuneError, 1)
  | b0 :: rest =>
    let s0 := b0.toNat
    if 0xC0 ≤ s0 ∧ s0 < 0xE0 then
      match rest with
      | b1 :: _ =>
        let r := (s0 % 32) * 64 + b1.toNat % 64
        if isCont b1 ∧ 0x7F < r then (r, 2) else (RuneError, 1)
      | [] => (RuneError, 1)
    else if 0xE0 ≤ s0 ∧ s0 < 0xF0 then
      match rest with
      | b1 :: b2 :: _ =>
        let r := (s0 % 16) * 4096 + (b1.toNat % 64) * 64 + b2.toNat % 64
        if isCont b1 ∧ isCont b2 ∧ 0x7FF < r ∧ ¬ (0xD800 ≤ r ∧ r ≤ 0xDFFF) then (r, 3)
        else (RuneError, 1)
      | _ => (RuneError, 1)
    else if 0xF0 ≤ s0 ∧ s0 < 0xF8 then
      match rest with
      | b1 :: b2 :: b3 :: _ =>
        let r := (s0 % 8) * 262144 + (b1.toNat % 64) * 4096 + (b2.toNat % 64) * 64
                  + b3.toNat % 64
        if isCont b1 ∧ isCont b2 ∧ isCont b3 ∧ 0xFFFF < r ∧ r ≤ 0x10FFFF then (r, 4)
        else (RuneError, 1)
      | _ => (RuneError, 1)
    else (RuneError, 1)

/-- One iteration header of `for k, c := range s`: a byte below `utf8.RuneSelf`
is its own rune, anything else goes through `decoderune`. -/
def nextRune : GoString → Rune × Nat
  | [] => (RuneError, 1)
  | b0 :: rest => if b0.toNat < 0x80 then (b0.toNat, 1) else decoderune (b0 :: rest)

/-- The pairs (byte index, rune) that `for k, c := range s` goes through. `k` is
the index of the byte at the head of the list and `skip` the number of bytes
still belonging to the rune read before. -/
def rangeFrom : Nat → Nat → GoString → List (Nat × Rune)
  | _, _, [] => []
  | k, skip + 1, _ :: rest => rangeFrom (k + 1) skip rest
  | k, 0, b :: rest =>
    (k, (nextRune (b :: rest)).1) :: rangeFrom (k + 1) ((nextRune (b :: rest)).2 - 1) rest

/-- The iterations of `for k, c := range s`. -/
def rangeString (s : GoString) : List (Nat × Rune) := rangeFrom 0 0 s

/-- The Go runtime's `encoderune`: the UTF-8 encoding of a rune; a surrogate or a
value above U+10FFFF is encoded as U+FFFD. -/
def encoderune (r : Rune) : GoString :=
  if r ≤ 0x7F then [UInt8.ofNat r]
  else if r ≤ 0x7FF then [UInt8.ofNat (0xC0 + r / 64), UInt8.ofNat (0x80 + r % 64)]
  else if 0x10FFFF < r ∨ (0xD800 ≤ r ∧ r ≤ 0xDFFF) then [0xEF, 0xBF, 0xBD]
  else if r ≤ 0xFFFF then
    [UInt8.ofNat (0xE0 + r / 4096), UInt8.ofNat (0x80 + r / 64 % 64), UInt8.ofNat (0x80 + r % 64)]
  else
    [UInt8.ofNat (0xF0 + r / 262144), UInt8.ofNat (0x80 + r / 4096 % 64),
     UInt8.ofNat (0x80 + r / 64 % 64), UInt8.ofNat (0x80 + r % 64)]

/-- The conversion `string(rs)` of a `[]rune`. -/
def runesToString (rs : List Rune) : GoString := rs.flatMap encoderune

/-- A string literal of the source as a Go string. -/
def str (s : String) : GoString := runesToString (s.toList.map Char.toNat)

/-- The table `hextable` of `encoding/hex`. -/
def hextable : GoString := str "0123456789abcdef"

/-- `hex.EncodeToString`: two digits of `hextable` for each byte, `v >> 4` then `v & 0x0f`. -/
def hexEncodeToString (src : List Byte) : GoString :=
  src.flatMap fun v => [hextable.getD (v.toNat / 16) 0, hextable.getD (v.toNat % 16) 0]

/-- `strconv.Itoa`: decimal digits, with a leading `-` for a negative number. -/
def Itoa (i : Int) : GoString := str (toString i)

/-- An `asn1.ObjectIdentifier`, a `[]int`. -/
abbrev ObjectIdentifier := List Int

/-- `ObjectIdentifier.String`: the numbers in decimal, joined by dots. -/
def ObjectIdentifier.String (oi : ObjectIdentifier) : GoString :=
  (List.range oi.length).foldl
    (fun s i => (if i > 0 then s ++ str "." else s) ++ Itoa (oi.getD i 0)) []

/-- The map `attributeTypeNames` (src/auth/certificate.go lines 10-20). -/
def attributeTypeNames : List (GoString × GoString) :=
  [ (str "2.5.4.6", str "C"),
    (str "2.5.4.10", str "O"),
    (str "2.5.4.11", str "OU"),
    (str "2.5.4.3", str "CN"),
    (str "2.5.4.5", str "SERIALNUMBER"),
    (str "2.5.4.7", str "L"),
    (str "2.5.4.8", str "ST"),
    (str "2.5.4.9", str "STREET"),
    (str "2.5.4.17", str "POSTALCODE") ]

/-- The `pkix.AttributeTypeAndValue` record (`Typ` is its field `Type`); `Value` is an `interface{}` in Go and
is observed only through `fmt.Sprint` and `asn1.Marshal`. -/
structure AttributeTypeAndValue (V : Type) where
  Typ : ObjectIdentifier
  Value : V

/-- The `pkix.RelativeDistinguishedNameSET` type. -/
abbrev RelativeDistinguishedNameSET (V : Type) := List (AttributeTypeAndValue V)

/-- The `pkix.RDNSequence` type. -/
abbrev RDNSequence (V : Type) := List (RelativeDistinguishedNameSET V)

/-- The two library functions applied to an attribute value: `fmt.Sprint` and
`asn1.Marshal` (which returns the DER bytes or an error). -/
structure ValueOps (V : Type) where
  Sprint : V → GoString
  Marshal : V → Except Unit (List Byte)

/-- The `switch c` of the escaping loop (src/auth/certificate.go lines 53-62), for
the rune `c` at byte index `k` of a value of `len` bytes. -/
def escapeSwitch (len : Nat) (k : Nat) (c : Rune) : Bool :=
  if c = 0x2C ∨ c = 0x2B ∨ c = 0x22 ∨ c = 0x5C ∨ c = 0x3C ∨ c = 0x3E ∨ c = 0x3B then true
  else if c = 0x20 then decide (k = 0) || decide ((k : Int) = (len : Int) - 1)
  else if c = 0x23 then decide (k = 0)
  else false

/-- The escaping loop (src/auth/certificate.go lines 47-69): the slice `escaped`
after `for k, c := range valueString`. -/
def escapeLoop (valueString : GoString) : List Rune :=
  (rangeString valueString).foldl
    (fun escaped kc =>
      if escapeSwitch valueString.length kc.1 kc.2 then escaped ++ [0x5C, kc.2]
      else escaped ++ [kc.2])
    []

/-- The body of the inner loop `for j, tv := range rdn` (lines 30-72), from the
string `s` built so far to the string after the iteration. -/
def attributeStep {V : Type} (ops : ValueOps V) (s : GoString) (j : Nat)
    (tv : AttributeTypeAndValue V) : GoString :=
  let s := if j > 0 then s ++ str "+" else s
  let oidString := tv.Typ.String
  match attributeTypeNames.lookup oidString with
  | some typeName => s ++ (typeName ++ str "=" ++ runesToString (escapeLoop (ops.Sprint tv.Value)))
  | none =>
    match ops.Marshal tv.Value with
    | Except.ok derBytes => s ++ (oidString ++ str "=#" ++ hexEncodeToString derBytes)
    | Except.error _ =>
      s ++ (oidString ++ str "=" ++ runesToString (escapeLoop (ops.Sprint tv.Value)))

/-- The body of the outer loop `for i := 0; i < len(r); i++` (lines 25-73). -/
def rdnStep {V : Type} (ops : ValueOps V) (r : RDNSequence V) (s : GoString) (i : Nat) :
    GoString :=
  let rdn := r.getD (r.length - 1 - i) []
  let s := if i > 0 then s ++ str "," else s
  rdn.enum.foldl (fun s jtv => attributeStep ops s jtv.1 jtv.2) s

/-- The function `Rdns_to_String` (src/auth/certificate.go lines 22-76). -/
def Rdns_to_String {V : Type} (ops : ValueOps V) (r : RDNSequence V) : GoString :=
  (List.range r.length).foldl (rdnStep ops r) []

/-! ### The layout and the escaping rule as RFC 2253 words them -/

/-- The text one attribute contributes: the inner loop body on an empty string
at index 0, where no separator is written. -/
def attributeString {V : Type} (ops : ValueOps V) (tv : AttributeTypeAndValue V) : GoString :=
  attributeStep ops [] 0 tv

/-- One RDN in the RFC 2253 layout: its attributes in their order, joined by `+`. -/
def rdnLayout {V : Type} (ops : ValueOps V) (rdn : RelativeDistinguishedNameSET V) : GoString :=
  (str "+").intercalate (rdn.map (attributeString ops))

/-- A sequence in the RFC 2253 layout: its RDNs from the last to the first, joined by `,`. -/
def sequenceLayout {V : Type} (ops : ValueOps V) (r : RDNSequence V) : GoString :=
  (str ",").intercalate (r.reverse.map (rdnLayout ops))

/-- The characters of a Go string: the runes `range` yields, without their byte indices. -/
def runes (s : GoString) : List Rune := (rangeString s).map Prod.snd

/-- The RFC 2253 escaping rule for the character `c` at position `i` (counted in
characters) of a value of `n` characters. -/
def mustEscape (n i : Nat) (c : Rune) : Prop :=
  c ∈ [0x2C, 0x2B, 0x22, 0x5C, 0x3C, 0x3E, 0x3B] ∨
  (c = 0x20 ∧ (i = 0 ∨ i + 1 = n)) ∨
  (c = 0x23 ∧ i = 0)

instance (n i : Nat) (c : Rune) : Decidable (mustEscape n i c) := by
  unfold mustEscape
  exact inferInstance

/-- The characters `cs` with a backslash put before exactly those the rule names. -/
def escapeRFC2253 (cs : List Rune) : List Rune :=
  cs.enum.flatMap fun ic => if mustEscape cs.length ic.1 ic.2 then [0x5C, ic.2] else [ic.2]

/-- Lower-case hexadecimal digit. -/
def isLowerHexDigit (b : Byte) : Prop := b ∈ str "0123456789abcdef"

instance (b : Byte) : Decidable (isLowerHexDigit b) := by
  unfold isLowerHexDigit
  exact inferInstance

/-- The test `isPrintable` of encoding/asn1 as `asn1.Marshal` applies it to a byte
of a string (Go 1.10 and later, where `*` and `&` do not count as printable):
letters, digits, space and the signs `' ( ) + , - . / : = ?`. -/
def isPrintable (b : Nat) : Bool :=
  (decide (0x61 ≤ b) && decide (b ≤ 0x7A)) || (decide (0x41 ≤ b) && decide (b ≤ 0x5A)) ||
  (decide (0x30 ≤ b) && decide (b ≤ 0x39)) || (decide (0x27 ≤ b) && decide (b ≤ 0x29)) ||
  (decide (0x2B ≤ b) && decide (b ≤ 0x2F)) ||
  decide (b = 0x20) || decide (b = 0x3A) || decide (b = 0x3D) || decide (b = 0x3F)

/-- Walks a Go string as `utf8.ValidString` does: false as soon as the decoder
meets a sequence that is not well-formed UTF-8 (it answers U+FFFD with a width of
one byte there; an encoded U+FFFD is three bytes wide). `skip` is the number of
bytes still belonging to the rune read before. -/
def validFrom : Nat → GoString → Bool
  | _, [] => true
  | skip + 1, _ :: rest => validFrom skip rest
  | 0, b :: rest =>
    if (nextRune (b :: rest)).1 = RuneError ∧ (nextRune (b :: rest)).2 = 1 then false
    else validFrom ((nextRune (b :: rest)).2 - 1) rest

/-- The function `utf8.ValidString`. -/
def ValidString (s : GoString) : Bool := validFrom 0 s

/-- The digits of `n` in base 256, most significant first, with `fuel` bounding
the number of digits. -/
def base256 : Nat → Nat → List Byte
  | 0, _ => []
  | fuel + 1, n => if n = 0 then [] else base256 fuel (n / 256) ++ [UInt8.ofNat (n % 256)]

/-- The DER length octets: one byte below 128, otherwise `0x80` plus the number of
length bytes, followed by the length in base 256. -/
def derLength (n : Nat) : List Byte :=
  if n < 128 then [UInt8.ofNat n]
  else UInt8.ofNat (0x80 + (base256 n n).length) :: base256 n n

/-- The function `asn1.Marshal` of encoding/asn1 on a value that is a Go string:
a PrintableString (tag `0x13`) when every character is below `utf8.RuneSelf` and
printable, otherwise a UTF8String (tag `0x0c`) when the string is valid UTF-8,
otherwise an error; the tag is followed by the length octets and the bytes of the
string. -/
def marshalString (s : GoString) : Except Unit (List Byte) :=
  if (runes s).all (fun r => decide (r < 0x80) && isPrintable r) then
    Except.ok (0x13 :: (derLength s.length ++ s))
  else if ValidString s then Except.ok (0x0C :: (derLength s.length ++ s))
  else Except.error ()

/-- The library functions on attribute values that are Go strings: `fmt.Sprint`
of a string is the string, and `asn1.Marshal` is `marshalString`. -/
def stringOps : ValueOps GoString where
  Sprint := id
  Marshal := marshalString

/-! ## Part 3: the push worker

The subscription record is declared in src/stores/query_models.go and the broker
interface in src/brokers/broker.go. The worker that drives a push subscription
(package `push`, used by `main` through `push.NewManager`, `LoadPushSubs` and
`StartAll`) is not among the source files; its state machine is taken from the
specification, section 4.3. -/

/-- The record `QSub` (src/stores/query_models.go lines 8-27) without its store
key `ID`. The `int64` and `int` fields are integers, on which the specification
states its arithmetic without wrap-around; `LatestConsume` is a time in seconds
and `ConsumeRate` a rational number in place of the `float64`. -/
structure QSub where
  ProjectUUID : String
  Name : String
  Topic : String
  Offset : Int
  NextOffset : Int
  PendingAck : String
  PushEndpoint : String
  MaxMessages : Int
  Ack : Int
  RetPolicy : String
  RetPeriod : Int
  MsgNum : Int
  TotalBytes : Int
  VerificationHash : String
  Verified : Bool
  LatestConsume : Int
  ConsumeRate : Rat
  deriving DecidableEq

/-- Modelled from the spec: the states of the push worker of section 4.3, whose
code is missing: `IDLE → CONSUMING → DELIVERING → (ACKED | AWAITING_RETRY) → IDLE`
and the terminal state `STOPPED`. -/
inductive Phase
  | IDLE
  | CONSUMING
  | DELIVERING
  | ACKED
  | AWAITING_RETRY
  | STOPPED
  deriving DecidableEq, Repr

/-- Modelled from the spec: the state of the missing push worker, the state of
section 4.3, the subscription it serves and the batch in flight (the raw records
`Consume` of src/brokers/broker.go returns are strings). -/
structure Worker where
  phase : Phase
  sub : QSub
  batch : List String
  deriving DecidableEq

/-- Modelled from the spec: what `Consume(topic, next_offset, immediate=true)` of
section 4.1 can answer the missing worker: records, `ErrOffsetOff`, or another
broker error. -/
inductive ConsumeResult
  | records (rs : List String)
  | offsetOff
  | brokerError
  deriving DecidableEq, Repr

/-- Modelled from the spec: what the surroundings answer the missing worker
during one step: the stop signal, the status of the verification request and of
each `SendMessage` (`none` is a network failure), the broker's minimum offset and
its answer to `Consume`, whether the ack deadline has passed, the fresh token for
`pending_ack`, and the clock and the consume rate for the statistics. -/
structure Answers where
  stop : Bool
  verifyStatus : Option Nat
  minOffset : Int
  consumed : ConsumeResult
  sendStatus : List (Option Nat)
  deadlineElapsed : Bool
  token : String
  now : Int
  rate : Rat

/-- Modelled from the spec: what the missing worker does that is visible from
outside: the two requests of the HTTP sender (section 4.2), the broker call, and
the three kinds of sleep of section 4.3. -/
inductive Event
  | SendVerification (endpoint hash : String)
  | SendMessage (endpoint record : String)
  | Consume (topic : String) (offset : Int) (immediate : Bool)
  | SleepPoll
  | SleepBackoff
  | SleepRetry (seconds : Int)
  deriving DecidableEq, Repr

/-- Modelled from the spec: the success test of the missing HTTP sender (section
4.2): any 2xx status is success, any other status or a network failure is not. -/
def is2xx : Option Nat → Bool
  | some code => decide (200 ≤ code) && decide (code < 300)
  | none => false

/-- Modelled from the spec: the delivery loop of state DELIVERING of the missing
worker: `SendMessage` for each record in offset order, the first failure aborting
the rest of the batch. Gives the requests sent and whether all succeeded. -/
def deliver (endpoint : String) : List String → List (Option Nat) → List Event × Bool
  | [], _ => ([], true)
  | r :: rs, sts =>
    if is2xx sts.head?.join then
      (Event.SendMessage endpoint r :: (deliver endpoint rs sts.tail).1,
        (deliver endpoint rs sts.tail).2)
    else ([Event.SendMessage endpoint r], false)

/-- Modelled from the spec: the bookkeeping of state ACKED of the missing worker.
Section 4.3 names its two assignments, `offset = next_offset` and
`next_offset += len(batch)`. By sections 3 and 8 `offset` is the last
acknowledged position and counts the acknowledged messages (0 → 3 → 5 in the
scenario in which `next_offset` is 3 after the first cycle), so `offset` is set
to `next_offset` with the batch added to it. `pending_ack` is cleared and the
statistics (message count, byte count, consume rate, timestamp) are updated. -/
def acked (sub : QSub) (batch : List String) (now : Int) (rate : Rat) : QSub :=
  { sub with
    Offset := sub.NextOffset + batch.length
    NextOffset := sub.NextOffset + batch.length
    PendingAck := ""
    MsgNum := sub.MsgNum + batch.length
    TotalBytes := sub.TotalBytes + (batch.map String.utf8ByteSize).sum
    ConsumeRate := rate
    LatestConsume := now }

/-- Modelled from the spec: one step of the missing push worker (section 4.3),
with the requests it sends. The stop signal is looked at before every step and
leads to STOPPED with nothing else changed. After a successful verification the
loop starts over in IDLE, so that delivery starts with the next cycle. -/
def step (a : Answers) (w : Worker) : Worker × List Event :=
  match w.phase with
  | Phase.STOPPED => (w, [])
  | Phase.IDLE =>
    if a.stop then ({ w with phase := Phase.STOPPED }, [])
    else if w.sub.Verified then ({ w with phase := Phase.CONSUMING }, [])
    else if is2xx a.verifyStatus then
      ({ w with sub := { w.sub with Verified := true } },
        [Event.SendVerification w.sub.PushEndpoint w.sub.VerificationHash])
    else (w, [Event.SendVerification w.sub.PushEndpoint w.sub.VerificationHash, Event.SleepPoll])
  | Phase.CONSUMING =>
    if a.stop then ({ w with phase := Phase.STOPPED }, [])
    else
      match a.consumed with
      | ConsumeResult.records rs =>
        if (rs.take w.sub.MaxMessages.toNat).isEmpty then
          ({ w with phase := Phase.IDLE },
            [Event.Consume w.sub.Topic w.sub.NextOffset true, Event.SleepPoll])
        else
          ({ w with phase := Phase.DELIVERING, batch := rs.take w.sub.MaxMessages.toNat },
            [Event.Consume w.sub.Topic w.sub.NextOffset true])
      | ConsumeResult.offsetOff =>
        if w.sub.NextOffset < a.minOffset then
          ({ w with phase := Phase.IDLE, sub := { w.sub with NextOffset := a.minOffset } },
            [Event.Consume w.sub.Topic w.sub.NextOffset true])
        else
          ({ w with phase := Phase.IDLE },
            [Event.Consume w.sub.Topic w.sub.NextOffset true, Event.SleepPoll])
      | ConsumeResult.brokerError =>
        ({ w with phase := Phase.IDLE },
          [Event.Consume w.sub.Topic w.sub.NextOffset true, Event.SleepBackoff])
  | Phase.DELIVERING =>
    if a.stop then ({ w with phase := Phase.STOPPED }, [])
    else if (deliver w.sub.PushEndpoint w.batch a.sendStatus).2 then
      ({ w with phase := Phase.ACKED, sub := { w.sub with PendingAck := a.token } },
        (deliver w.sub.PushEndpoint w.batch a.sendStatus).1)
    else
      ({ w with phase := Phase.AWAITING_RETRY, sub := { w.sub with PendingAck := a.token } },
        (deliver w.sub.PushEndpoint w.batch a.sendStatus).1)
  | Phase.ACKED =>
    if a.stop then ({ w with phase := Phase.STOPPED }, [])
    else ({ phase := Phase.IDLE, sub := acked w.sub w.batch a.now a.rate, batch := [] }, [])
  | Phase.AWAITING_RETRY =>
    if a.stop then ({ w with phase := Phase.STOPPED }, [])
    else if w.sub.RetPolicy = "linear" ∧ a.deadlineElapsed = false then
      ({ w with phase := Phase.DELIVERING }, [Event.SleepRetry w.sub.RetPeriod])
    else
      ({ w with phase := Phase.IDLE, sub := { w.sub with PendingAck := "" }, batch := [] }, [])

/-- Modelled from the spec: the missing worker as the Delivery Manager starts it
(section 4.4): in IDLE, with no batch in flight. -/
def startWorker (sub : QSub) : Worker :=
  { phase := Phase.IDLE, sub := sub, batch := [] }

/-- Modelled from the spec: the ACKED step of the missing worker on its own: the
subscription after one step taken in state ACKED with the batch `batch`
delivered, under the answers `a`. -/
def ackStep (a : Answers) (batch : List String) (sub : QSub) : QSub :=
  (step a { phase := Phase.ACKED, sub := sub, batch := batch }).1.sub

/-- Modelled from the spec: a run of the missing worker, one step for each answer
of the surroundings, with all requests it sends. -/
def run : List Answers → Worker → Worker × List Event
  | [], w => (w, [])
  | a :: rest, w => ((run rest (step a w).1).1, (step a w).2 ++ (run rest (step a w).1).2)

/-- Modelled from the spec: the answers during a cycle of the missing worker in
which the broker hands out the records `rs` and the endpoint answers 200 to each
of them. -/
def okAnswers (rs : List String) : Answers :=
  { stop := false
    verifyStatus := some 200
    minOffset := 0
    consumed := ConsumeResult.records rs
    sendStatus := List.replicate rs.length (some 200)
    deadlineElapsed := false
    token := "ack"
    now := 0
    rate := 0 }

/-- Modelled from the spec: one full cycle of the missing worker, the four steps
IDLE, CONSUMING, DELIVERING, ACKED, with the answers `okAnswers rs`. -/
def successCycle (rs : List String) (w : Worker) : Worker :=
  (run [okAnswers rs, okAnswers rs, okAnswers rs, okAnswers rs] w).1

/-- Modelled from the spec: successive cycles of the missing worker, one for each
batch of records. -/
def successCycles (batches : List (List String)) (w : Worker) : Worker :=
  batches.foldl (fun w rs => successCycle rs w) w

/-- Modelled from the spec: `Consume` of the missing broker implementation
(section 4.1) on a log whose first record has offset `min`: `ErrOffsetOff` outside
`[min, max)`, otherwise the records from `offset` on. -/
def brokerConsume (log : List String) (min offset : Int) : ConsumeResult :=
  if offset < min ∨ min + log.length ≤ offset then ConsumeResult.offsetOff
  else ConsumeResult.records (log.drop (offset - min).toNat)

/-- Modelled from the spec: the answers to the missing worker in state `w` of a
broker holding `log` from offset 0 and an endpoint that always returns 200. -/
def scenarioAnswers (log : List String) (w : Worker) : Answers :=
  { stop := false
    verifyStatus := some 200
    minOffset := 0
    consumed := brokerConsume log 0 w.sub.NextOffset
    sendStatus := List.replicate w.batch.length (some 200)
    deadlineElapsed := false
    token := "ack"
    now := 0
    rate := 0 }

/-- Modelled from the spec: `n` steps of the missing worker against the broker and
endpoint of `scenarioAnswers`. -/
def simulate (log : List String) : Nat → Worker → Worker
  | 0, w => w
  | n + 1, w => simulate log n (step (scenarioAnswers log w) w).1

/-- A verified push subscription of topic `t` with `offset = next_offset = 0`,
`max_messages = 3` and linear retry, as in the end-to-end scenario of section 8. -/
def scenarioSub : QSub :=
  { ProjectUUID := "p", Name := "s", Topic := "t", Offset := 0, NextOffset := 0,
    PendingAck := "", PushEndpoint := "https://example.org/push", MaxMessages := 3, Ack := 10,
    RetPolicy := "linear", RetPeriod := 2, MsgNum := 0, TotalBytes := 0,
    VerificationHash := "h", Verified := true, LatestConsume := 0, ConsumeRate := 0 }

/-- The topic of the end-to-end scenario: five messages at offsets 0 to 4. -/
def scenarioLog : List String := ["m0", "m1", "m2", "m3", "m4"]

/-- The event is a `SendMessage` request. -/
def Event.isSendMessage : Event → Bool
  | Event.SendMessage _ _ => true
  | _ => false

/-- The event belongs to the verification handshake: the request itself or the
wait before it is repeated. -/
def Event.isVerification : Event → Bool
  | Event.SendVerification _ _ => true
  | Event.SleepPoll => true
  | _ => false

/-- Modelled from the spec: answers in which `Consume` fails with `ErrOffsetOff`
and the broker's minimum offset is 5 (the older records are gone). -/
def resyncAnswers : Answers :=
  { okAnswers [] with consumed := ConsumeResult.offsetOff, minOffset := 5 }

/-- Modelled from the spec: answers in which the endpoint returns 200 to the
first record and 500 to the second. -/
def failingAnswers : Answers :=
  { okAnswers [] with sendStatus := [some 200, some 500] }

/-- The missing worker in DELIVERING with the batch of offsets 3 and 4 in flight. -/
def deliveringWorker : Worker :=
  { phase := Phase.DELIVERING
    sub := { scenarioSub with Offset := 0, NextOffset := 3 }
    batch := ["m3", "m4"] }

/-- The state property behind the verification gate: outside IDLE and STOPPED
the subscription is verified. -/
def gateHolds (w : Worker) : Prop :=
  w.phase = Phase.IDLE ∨ w.phase = Phase.STOPPED ∨ w.sub.Verified = true

/-- The subscription of the scenario before its endpoint has been verified. -/
def unverifiedSub : QSub := { scenarioSub with Verified := false }

/-- Modelled from the spec: answers in which the endpoint rejects the
verification request with status 403. -/
def rejectAnswers : Answers :=
  { okAnswers [] with verifyStatus := some 403 }

/-- Modelled from the spec: the state the missing worker started on `sub` reaches
after the steps answered by `as`. -/
def reached (sub : QSub) (as : List Answers) : Worker :=
  (run as (startWorker sub)).1

/-! ## The claim on `main` -/

/-- C1 (the code departs from it): `CloseConnections` is deferred in `main`, so it
runs once when `main` returns; on each path that ends in `log.Fatal`, among them
the one where `ListenAndServeTLS` returns an error, the process exits without
running it and the count is 0, not 1. -/
theorem main_closeConnections_count :
    (∀ env : MainEnv,
      closeCount env
        = if env.caAccessErr || env.caWalkErr || env.listenErr then 0 else 1) ∧
    closeCount { caAccessErr := false, caWalkErr := false, listenErr := true } = 0 ∧
    main { caAccessErr := false, caWalkErr := false, listenErr := true }
      = [Effect.NewAPICfg, Effect.NewMongoStore, Effect.StoreInit, Effect.NewKafkaBroker,
         Effect.NewHTTPSender, Effect.NewManager, Effect.LoadPushSubs, Effect.StartAll,
         Effect.NewRouting, Effect.LogInfo, Effect.WalkCAs, Effect.LogInfo,
         Effect.ListenAndServeTLS, Effect.LogFatal, Effect.OsExit] := by
  refine ⟨?_, by decide, by decide⟩
  rintro ⟨a, b, c⟩
  cases a <;> cases b <;> cases c <;> decide


/-! ## Lemmas on loops over lists -/

theorem foldl_append_eq_flatMap {α β : Type} (f : α → List β) (l : List α) (a : List β) :
    l.foldl (fun acc x => acc ++ f x) a = a ++ l.flatMap f := by
  induction l generalizing a with
  | nil => simp
  | cons x l ih => simp [ih, List.append_assoc]

theorem foldl_range'_index {α σ : Type} (g : σ → Nat → α → σ) (h : Nat → α) :
    ∀ (l : List α) (k : Nat) (a : σ),
      (∀ i (hi : i < l.length), h (k + i) = l[i]) →
      (List.range' k l.length).foldl (fun s i => g s i (h i)) a
        = (l.enumFrom k).foldl (fun s p => g s p.1 p.2) a := by
  intro l
  induction l with
  | nil => intro k a _; simp
  | cons x l ih =>
    intro k a hh
    have h0 : h k = x := by simpa using hh 0 (by simp)
    simp only [List.length_cons, List.range'_succ, List.foldl_cons, List.enumFrom_cons, h0]
    apply ih
    intro i hi
    have := hh (i + 1) (by simpa using hi)
    simpa [Nat.add_assoc, Nat.add_comm 1 i] using this

theorem intercalate_cons_eq {α : Type} (sep x : List α) (xs : List (List α)) :
    sep.intercalate (x :: xs) = x ++ xs.flatMap (fun y => sep ++ y) := by
  induction xs generalizing x with
  | nil => simp [List.intercalate]
  | cons y ys ih =>
    have := ih y
    simp only [List.intercalate, List.intersperse, List.flatten_cons, List.flatMap_cons] at this ⊢
    rw [this]
    simp [List.append_assoc]

theorem enumFrom_succ_flatMap_sep {α β : Type} (sep : List β) (f : α → List β) (l : List α)
    (n : Nat) :
    (l.enumFrom (n + 1)).flatMap (fun p => (if p.1 > 0 then sep else []) ++ f p.2)
      = l.flatMap (fun x => sep ++ f x) := by
  induction l generalizing n with
  | nil => simp
  | cons x l ih => simp [List.enumFrom_cons, ih]

theorem enum_flatMap_sep {α β : Type} (sep : List β) (f : α → List β) (l : List α) :
    l.enum.flatMap (fun p => (if p.1 > 0 then sep else []) ++ f p.2)
      = sep.intercalate (l.map f) := by
  cases l with
  | nil => simp [List.intercalate]
  | cons x l =>
    rw [List.map_cons, intercalate_cons_eq, List.enum_cons, List.flatMap_cons,
      enumFrom_succ_flatMap_sep]
    simp [List.flatMap_map]

theorem attributeStep_eq {V : Type} (ops : ValueOps V) (s : GoString) (j : Nat)
    (tv : AttributeTypeAndValue V) :
    attributeStep ops s j tv
      = s ++ ((if j > 0 then str "+" else []) ++ attributeString ops tv) := by
  unfold attributeString attributeStep
  by_cases hj : j > 0
  · simp only [hj, if_true]
    split
    · simp
    · split <;> simp
  · simp only [hj, if_false]
    split
    · simp
    · split <;> simp

theorem rdnStep_eq {V : Type} (ops : ValueOps V) (r : RDNSequence V) (s : GoString) (i : Nat) :
    rdnStep ops r s i
      = s ++ ((if i > 0 then str "," else []) ++ rdnLayout ops (r.getD (r.length - 1 - i) [])) := by
  unfold rdnStep rdnLayout
  have hf : (fun (s : GoString) (jtv : Nat × AttributeTypeAndValue V) =>
        attributeStep ops s jtv.1 jtv.2)
      = (fun s jtv => s ++ ((if jtv.1 > 0 then str "+" else []) ++ attributeString ops jtv.2)) := by
    funext s jtv
    exact attributeStep_eq ops s jtv.1 jtv.2
  simp only [hf]
  rw [foldl_append_eq_flatMap (fun jtv : Nat × AttributeTypeAndValue V =>
      (if jtv.1 > 0 then str "+" else []) ++ attributeString ops jtv.2), enum_flatMap_sep]
  by_cases hi : i > 0 <;> simp [hi]

theorem Rdns_to_String_eq_layout {V : Type} (ops : ValueOps V) (r : RDNSequence V) :
    Rdns_to_String ops r = sequenceLayout ops r := by
  unfold Rdns_to_String sequenceLayout
  have hf : rdnStep ops r
      = (fun s i => s ++ ((if i > 0 then str "," else [])
            ++ rdnLayout ops (r.getD (r.length - 1 - i) []))) := by
    funext s i
    exact rdnStep_eq ops r s i
  have key := foldl_range'_index
    (fun (s : GoString) (i : Nat) (rdn : RelativeDistinguishedNameSET V) =>
      s ++ ((if i > 0 then str "," else []) ++ rdnLayout ops rdn))
    (fun i => r.getD (r.length - 1 - i) []) r.reverse 0 [] (by
      intro i hi
      rw [List.getElem_reverse]
      simp only [List.length_reverse] at hi
      simp only [Nat.zero_add]
      rw [List.getD_eq_getElem?_getD, List.getElem?_eq_getElem (by omega)]
      simp)
  simp only [List.length_reverse] at key
  rw [hf, List.range_eq_range', key, ← List.enum,
    foldl_append_eq_flatMap (fun p : Nat × RelativeDistinguishedNameSET V =>
      (if p.1 > 0 then str "," else []) ++ rdnLayout ops p.2), enum_flatMap_sep]
  simp

theorem decoderune_cases (s : GoString) :
    decoderune s = (RuneError, 1) ∨ 0x7F < (decoderune s).1 := by
  unfold decoderune
  split
  · left; rfl
  · dsimp only
    split_ifs with h1 h2 h3
    · split
      · split_ifs with h
        · right; exact h.2
        · left; rfl
      · left; rfl
    · split
      · split_ifs with h
        · right; show (0x7F : Nat) < _; omega
        · left; rfl
      · left; rfl
    · split
      · split_ifs with h
        · right; show (0x7F : Nat) < _; omega
        · left; rfl
      · left; rfl
    · left; rfl

theorem decoderune_ascii_width (s : GoString) (h : (decoderune s).1 < 0x80) :
    (decoderune s).2 = 1 := by
  rcases decoderune_cases s with h1 | h1
  · rw [h1]
  · exact absurd h (Nat.not_lt.mpr h1)

theorem nextRune_ascii_width (s : GoString) (h : (nextRune s).1 < 0x80) :
    (nextRune s).2 = 1 := by
  unfold nextRune at h ⊢
  split
  · rfl
  · split_ifs with hb
    · rfl
    · simp only [hb, if_false] at h
      exact decoderune_ascii_width _ h

theorem rangeFrom_zero_length (k : Nat) (s : GoString) :
    (rangeFrom k 0 s).length = 0 ↔ s = [] := by
  cases s with
  | nil => simp [rangeFrom]
  | cons b rest => simp [rangeFrom]

theorem rangeFrom_index_spec :
    ∀ (s : GoString) (k skip i : Nat) (p : Nat × Rune),
      (rangeFrom k skip s)[i]? = some p →
      k + skip ≤ p.1 ∧ p.1 < k + s.length ∧
      (p.2 < 0x80 → (p.1 + 1 = k + s.length ↔ i + 1 = (rangeFrom k skip s).length)) ∧
      (skip = 0 → (p.1 = k ↔ i = 0)) := by
  intro s
  induction s with
  | nil => intro k skip i p h; simp [rangeFrom] at h
  | cons b rest ih =>
    intro k skip i p h
    cases skip with
    | succ skip =>
      rw [rangeFrom] at h ⊢
      obtain ⟨h1, h2, h3, _⟩ := ih (k + 1) skip i p h
      refine ⟨by omega, by simp only [List.length_cons]; omega, ?_, by omega⟩
      intro hp
      have := h3 hp
      simp only [List.length_cons]
      omega
    | zero =>
      rw [rangeFrom] at h ⊢
      cases i with
      | zero =>
        simp only [List.getElem?_cons_zero, Option.some.injEq] at h
        subst h
        refine ⟨by simp, by simp, ?_, by simp⟩
        intro hp
        have hw := nextRune_ascii_width (b :: rest) hp
        simp only [hw, List.length_cons, Nat.sub_self]
        by_cases hr : rest = []
        · subst hr
          simp [rangeFrom]
        · have h1 : (rangeFrom (k + 1) 0 rest).length ≠ 0 :=
            fun hc => hr ((rangeFrom_zero_length (k + 1) rest).mp hc)
          have h2 : rest.length ≠ 0 := fun hc => hr (List.length_eq_zero.mp hc)
          omega
      | succ i =>
        simp only [List.getElem?_cons_succ] at h
        obtain ⟨h1, h2, h3, _⟩ := ih (k + 1) _ i p h
        refine ⟨by omega, by simp only [List.length_cons]; omega, ?_, ?_⟩
        · intro hp
          have := h3 hp
          simp only [List.length_cons]
          omega
        · intro _
          constructor
          · intro hk; omega
          · intro hi; omega

theorem flatMap_eq_enumFrom_flatMap {α β γ : Type} (f : α → List γ) (g : Nat × β → List γ)
    (π : α → β) :
    ∀ (L : List α) (n : Nat), (∀ i x, L[i]? = some x → f x = g (n + i, π x)) →
      L.flatMap f = ((L.map π).enumFrom n).flatMap g := by
  intro L
  induction L with
  | nil => intro n _; simp
  | cons x L ih =>
    intro n h
    simp only [List.flatMap_cons, List.map_cons, List.enumFrom_cons]
    rw [h 0 x (by simp), ih (n + 1)]
    · simp
    · intro i y hy
      have := h (i + 1) y (by simpa using hy)
      rw [this]
      congr 2
      omega

theorem escapeSwitch_iff (v : GoString) (i : Nat) (p : Nat × Rune)
    (h : (rangeString v)[i]? = some p) :
    escapeSwitch v.length p.1 p.2 = true ↔ mustEscape (rangeString v).length i p.2 := by
  obtain ⟨_, _, h3, h4⟩ := rangeFrom_index_spec v 0 0 i p h
  have h0 : p.1 = 0 ↔ i = 0 := h4 rfl
  unfold escapeSwitch mustEscape
  by_cases hs : p.2 = 0x2C ∨ p.2 = 0x2B ∨ p.2 = 0x22 ∨ p.2 = 0x5C ∨ p.2 = 0x3C ∨ p.2 = 0x3E
      ∨ p.2 = 0x3B
  · simp only [hs, if_true, true_iff]
    left
    simpa using hs
  · have hs2 : ¬ p.2 ∈ [0x2C, 0x2B, 0x22, 0x5C, 0x3C, 0x3E, 0x3B] := by simpa using hs
    simp only [hs, if_false, hs2, false_or]
    by_cases hsp : p.2 = 0x20
    · have hlast : p.1 + 1 = 0 + v.length ↔ i + 1 = (rangeFrom 0 0 v).length :=
        h3 (by rw [hsp]; decide)
      have hne : ¬ p.2 = 0x23 := by rw [hsp]; decide
      simp only [hsp, if_true, hne, false_and, or_false, true_and, Bool.or_eq_true,
        decide_eq_true_eq, rangeString]
      constructor
      · rintro (hk | hk)
        · left; left; exact h0.mp hk
        · left; right; apply hlast.mp; omega
      · rintro ((hi | hi) | ⟨hi, _⟩)
        · left; exact h0.mpr hi
        · right; have := hlast.mpr hi; omega
        · exact absurd hi (by decide)
    · simp only [hsp, if_false, false_and, false_or]
      by_cases hh : p.2 = 0x23
      · simp only [hh, if_true, decide_eq_true_eq, true_and]
        exact h0
      · simp [hh]

theorem escapeLoop_eq (v : GoString) : escapeLoop v = escapeRFC2253 (runes v) := by
  unfold escapeLoop escapeRFC2253 runes
  have hf : (fun (escaped : List Rune) (kc : Nat × Rune) =>
        if escapeSwitch v.length kc.1 kc.2 = true then escaped ++ [0x5C, kc.2]
        else escaped ++ [kc.2])
      = (fun escaped kc => escaped ++
          (if escapeSwitch v.length kc.1 kc.2 = true then [0x5C, kc.2] else [kc.2])) := by
    funext escaped kc
    split <;> rfl
  rw [hf, foldl_append_eq_flatMap (fun kc : Nat × Rune =>
      if escapeSwitch v.length kc.1 kc.2 = true then [0x5C, kc.2] else [kc.2]),
    List.nil_append, List.enum]
  apply flatMap_eq_enumFrom_flatMap
  intro i p hp
  have := escapeSwitch_iff v i p hp
  simp only [List.length_map, Nat.zero_add]
  by_cases hm : mustEscape (rangeString v).length i p.2
  · rw [if_pos (this.mpr hm), if_pos hm]
  · rw [if_neg (fun hc => hm (this.mp hc)), if_neg hm]

theorem byte_ofNat_toNat (n : Nat) : (UInt8.ofNat n).toNat = n % 256 := rfl

theorem nextRune_encoderune (c : Nat) (hc : c < 0xD800 ∨ (0xDFFF < c ∧ c ≤ 0x10FFFF))
    (rest : GoString) :
    nextRune (encoderune c ++ rest) = (c, (encoderune c).length) := by
  unfold encoderune
  split_ifs with h1 h2 h3 h4 <;> unfold Rune at *
  · simp only [List.singleton_append, nextRune, byte_ofNat_toNat, List.length_singleton]
    rw [if_pos (by omega)]
    congr 1
    show (_ : Nat) = _
    omega
  · simp only [List.cons_append, List.nil_append, nextRune, decoderune, isCont, byte_ofNat_toNat,
      List.length_cons, List.length_nil]
    rw [if_neg (by omega), if_pos (by omega), if_pos]
    · congr 1
      show (_ : Nat) = _
      omega
    · refine ⟨by simp; omega, ?_⟩
      show (0x7F : Nat) < _
      omega
  · omega
  · simp only [List.cons_append, List.nil_append, nextRune, decoderune, isCont, byte_ofNat_toNat,
      List.length_cons, List.length_nil]
    rw [if_neg (by omega), if_neg (by omega), if_pos (by omega), if_pos]
    · congr 1
      show (_ : Nat) = _
      omega
    · refine ⟨by simp; omega, by simp; omega, ?_, ?_⟩
      · show (0x7FF : Nat) < _
        omega
      · show ¬ ((0xD800 : Nat) ≤ _ ∧ _ ≤ (0xDFFF : Nat))
        omega
  · simp only [List.cons_append, List.nil_append, nextRune, decoderune, isCont, byte_ofNat_toNat,
      List.length_cons, List.length_nil]
    rw [if_neg (by omega), if_neg (by omega), if_neg (by omega), if_pos (by omega), if_pos]
    · congr 1
      show (_ : Nat) = _
      omega
    · refine ⟨by simp; omega, by simp; omega, by simp; omega, ?_, ?_⟩
      · show (0xFFFF : Nat) < _
        omega
      · show _ ≤ (0x10FFFF : Nat)
        omega

theorem rangeFrom_skip (pre rest : GoString) (k : Nat) :
    rangeFrom k pre.length (pre ++ rest) = rangeFrom (k + pre.length) 0 rest := by
  induction pre generalizing k with
  | nil => simp
  | cons b pre ih =>
    simp only [List.length_cons, List.cons_append, rangeFrom]
    have := ih (k + 1)
    simp only [List.append_eq] at this ⊢
    rw [this]
    congr 1
    omega

theorem encoderune_ne_nil (c : Rune) : encoderune c ≠ [] := by
  unfold encoderune
  split_ifs <;> simp

theorem rangeFrom_encoderune (c : Nat) (hc : c < 0xD800 ∨ (0xDFFF < c ∧ c ≤ 0x10FFFF))
    (rest : GoString) (k : Nat) :
    rangeFrom k 0 (encoderune c ++ rest)
      = (k, c) :: rangeFrom (k + (encoderune c).length) 0 rest := by
  have hn := nextRune_encoderune c hc rest
  cases he : encoderune c with
  | nil => exact absurd he (encoderune_ne_nil c)
  | cons b tl =>
    rw [he] at hn
    simp only [List.cons_append] at hn ⊢
    rw [rangeFrom, hn]
    simp only [List.length_cons, Nat.add_sub_cancel]
    rw [rangeFrom_skip tl rest (k + 1)]
    congr 2
    omega

theorem runes_from_chars (cs : List Char) (k : Nat) :
    (rangeFrom k 0 (runesToString (cs.map Char.toNat))).map Prod.snd = cs.map Char.toNat := by
  induction cs generalizing k with
  | nil => simp [runesToString, rangeFrom]
  | cons c cs ih =>
    have hv : c.toNat < 0xD800 ∨ (0xDFFF < c.toNat ∧ c.toNat ≤ 0x10FFFF) := by
      rcases c.valid with h | ⟨h1, h2⟩
      · left; exact h
      · right; exact ⟨h1, Nat.le_of_lt_succ h2⟩
    simp only [List.map_cons, runesToString, List.flatMap_cons]
    rw [rangeFrom_encoderune _ hv]
    simp only [List.map_cons, List.cons.injEq, true_and]
    exact ih _

theorem runes_str (s : String) : runes (str s) = s.toList.map Char.toNat := by
  unfold runes rangeString str
  exact runes_from_chars s.toList 0

theorem attributeString_known {V : Type} (ops : ValueOps V) (tv : AttributeTypeAndValue V)
    (typeName : GoString) (h : attributeTypeNames.lookup tv.Typ.String = some typeName) :
    attributeString ops tv
      = typeName ++ str "=" ++ runesToString (escapeLoop (ops.Sprint tv.Value)) := by
  unfold attributeString attributeStep
  simp [h]

theorem Rdns_to_String_single {V : Type} (ops : ValueOps V) (tv : AttributeTypeAndValue V) :
    Rdns_to_String ops [[tv]] = attributeString ops tv := by
  rw [Rdns_to_String_eq_layout]
  simp [sequenceLayout, rdnLayout, List.intercalate]

theorem hextable_getD_mem : ∀ n, n < 16 → isLowerHexDigit (hextable.getD n 0) := by
  decide

theorem hexEncodeToString_digits (src : List Byte) :
    ∀ b ∈ hexEncodeToString src, isLowerHexDigit b := by
  intro b hb
  unfold hexEncodeToString at hb
  rw [List.mem_flatMap] at hb
  obtain ⟨v, _, hv⟩ := hb
  have hlt : v.toNat < 256 := UInt8.toNat_lt v
  simp only [List.mem_cons, List.mem_singleton, List.not_mem_nil, or_false] at hv
  rcases hv with hv | hv
  · rw [hv]; exact hextable_getD_mem _ (by omega)
  · rw [hv]; exact hextable_getD_mem _ (by omega)

theorem hexEncodeToString_length (src : List Byte) :
    (hexEncodeToString src).length = 2 * src.length := by
  unfold hexEncodeToString
  induction src with
  | nil => rfl
  | cons v src ih =>
    simp only [List.flatMap_cons, List.length_append, List.length_cons, List.length_nil, ih]
    omega

/-! ## The claims on `Rdns_to_String` -/

/-- C2: `Rdns_to_String` follows the RFC 2253 layout. For every RDN sequence the
result is the RDNs from the last to the first joined by `,`, each RDN being its
attributes in their order joined by `+`; an attribute whose OID has a short name
in `attributeTypeNames` is that name, `=`, and the escaped value (OID 2.5.4.3
starts with `CN=`); the empty sequence gives the empty string. -/
theorem Rdns_to_String_layout {V : Type} (ops : ValueOps V) :
    (∀ r : RDNSequence V,
      Rdns_to_String ops r
        = (str ",").intercalate (r.reverse.map fun rdn =>
            (str "+").intercalate (rdn.map (attributeString ops)))) ∧
    (∀ (tv : AttributeTypeAndValue V) (typeName : GoString),
      attributeTypeNames.lookup tv.Typ.String = some typeName →
      attributeString ops tv
        = typeName ++ str "=" ++ runesToString (escapeLoop (ops.Sprint tv.Value))) ∧
    (∀ v : V,
      attributeString ops ⟨[2, 5, 4, 3], v⟩
        = str "CN=" ++ runesToString (escapeLoop (ops.Sprint v))) ∧
    Rdns_to_String ops ([] : RDNSequence V) = [] := by
  refine ⟨?_, ?_, ?_, ?_⟩
  · intro r
    exact Rdns_to_String_eq_layout ops r
  · intro tv typeName h
    exact attributeString_known ops tv typeName h
  · intro v
    have h : attributeTypeNames.lookup (ObjectIdentifier.String [2, 5, 4, 3])
        = some (str "CN") := by decide
    rw [attributeString_known ops ⟨[2, 5, 4, 3], v⟩ (str "CN") h]
    rfl
  · rfl

/-- C2 at a concrete name: three RDNs, the middle one with two attributes. -/
theorem Rdns_to_String_layout_witness :
    attributeTypeNames.lookup (ObjectIdentifier.String [2, 5, 4, 10]) = some (str "O") ∧
    attributeString stringOps ⟨[2, 5, 4, 10], str "a,b"⟩ = str "O=a\\,b" ∧
    Rdns_to_String stringOps
      [[⟨[2, 5, 4, 6], str "GR"⟩],
       [⟨[2, 5, 4, 10], str "a,b"⟩, ⟨[2, 5, 4, 11], str "x"⟩],
       [⟨[2, 5, 4, 3], str "Jo"⟩]]
      = str "CN=Jo,O=a\\,b+OU=x,C=GR" :=
  ⟨by decide,
   ((Rdns_to_String_layout stringOps).2.1 ⟨[2, 5, 4, 10], str "a,b"⟩ (str "O")
      (by decide)).trans (by decide),
   ((Rdns_to_String_layout stringOps).1 _).trans (by decide)⟩

/-- C3: the escaping of a value of an attribute with a known type. A character
of the value gets a backslash in front exactly when it is one of `, + " \ < > ;`,
a space that is the first or the last character, or a `#` that is the first
character; all characters are kept in their order. The characters are the runes
`range` yields, for a text in UTF-8 its code points, whatever their width in
bytes; a value that is one space becomes backslash, space. -/
theorem Rdns_to_String_escaping {V : Type} (ops : ValueOps V) :
    (∀ v : GoString, escapeLoop v = escapeRFC2253 (runes v)) ∧
    (∀ (tv : AttributeTypeAndValue V) (typeName : GoString),
      attributeTypeNames.lookup tv.Typ.String = some typeName →
      (∀ (s : GoString) (j : Nat),
        attributeStep ops s j tv
          = (if j > 0 then s ++ str "+" else s)
              ++ (typeName ++ str "="
                  ++ runesToString (escapeRFC2253 (runes (ops.Sprint tv.Value))))) ∧
      Rdns_to_String ops [[tv]]
        = typeName ++ str "=" ++ runesToString (escapeRFC2253 (runes (ops.Sprint tv.Value)))) ∧
    (∀ text : String,
      runes (str text) = text.toList.map Char.toNat ∧
      escapeLoop (str text) = escapeRFC2253 (text.toList.map Char.toNat)) ∧
    escapeLoop (str " ") = [0x5C, 0x20] := by
  refine ⟨escapeLoop_eq, ?_, ?_, by decide⟩
  · intro tv typeName h
    constructor
    · intro s j
      rw [attributeStep_eq, attributeString_known ops tv typeName h, escapeLoop_eq]
      by_cases hj : j > 0 <;> simp [hj]
    · rw [Rdns_to_String_single, attributeString_known ops tv typeName h, escapeLoop_eq]
  · intro text
    refine ⟨runes_str text, ?_⟩
    rw [escapeLoop_eq, runes_str]

/-- C3 at a concrete value with characters of two and three bytes, a leading
`#`, an inner `#`, a comma and a trailing space. -/
theorem Rdns_to_String_escaping_witness :
    attributeTypeNames.lookup (ObjectIdentifier.String [2, 5, 4, 3]) = some (str "CN") ∧
    Rdns_to_String stringOps [[⟨[2, 5, 4, 3], str "#é,#€ "⟩]]
      = str "CN=\\#é\\,#€\\ " :=
  ⟨by decide,
   (((Rdns_to_String_escaping stringOps).2.1 ⟨[2, 5, 4, 3], str "#é,#€ "⟩ (str "CN")
      (by decide)).2).trans (by decide)⟩

/-- C4: an attribute whose OID has no short name. When the value DER-encodes, the
attribute is the dotted OID, `=#`, and the lower-case hexadecimal digits of the
DER bytes, two for each byte, with no escaping; when DER encoding fails, and only
then, it is the dotted OID, `=`, and the escaped value. -/
theorem Rdns_to_String_unknown_oid {V : Type} (ops : ValueOps V)
    (tv : AttributeTypeAndValue V)
    (h : attributeTypeNames.lookup tv.Typ.String = none) :
    (∀ derBytes : List Byte, ops.Marshal tv.Value = Except.ok derBytes →
      (∀ (s : GoString) (j : Nat),
        attributeStep ops s j tv
          = (if j > 0 then s ++ str "+" else s)
              ++ (tv.Typ.String ++ str "=#" ++ hexEncodeToString derBytes)) ∧
      Rdns_to_String ops [[tv]] = tv.Typ.String ++ str "=#" ++ hexEncodeToString derBytes ∧
      (∀ b ∈ hexEncodeToString derBytes, isLowerHexDigit b) ∧
      (hexEncodeToString derBytes).length = 2 * derBytes.length ∧
      Even (hexEncodeToString derBytes).length) ∧
    (∀ e : Unit, ops.Marshal tv.Value = Except.error e →
      (∀ (s : GoString) (j : Nat),
        attributeStep ops s j tv
          = (if j > 0 then s ++ str "+" else s)
              ++ (tv.Typ.String ++ str "="
                  ++ runesToString (escapeLoop (ops.Sprint tv.Value)))) ∧
      Rdns_to_String ops [[tv]]
        = tv.Typ.String ++ str "=" ++ runesToString (escapeLoop (ops.Sprint tv.Value))) := by
  constructor
  · intro derBytes hm
    have hs : attributeString ops tv = tv.Typ.String ++ str "=#" ++ hexEncodeToString derBytes := by
      unfold attributeString attributeStep
      simp [h, hm]
    refine ⟨?_, ?_, hexEncodeToString_digits derBytes, hexEncodeToString_length derBytes, ?_⟩
    · intro s j
      rw [attributeStep_eq, hs]
      by_cases hj : j > 0 <;> simp [hj]
    · rw [Rdns_to_String_single, hs]
    · rw [hexEncodeToString_length]
      exact even_two_mul _
  · intro e hm
    have hs : attributeString ops tv
        = tv.Typ.String ++ str "=" ++ runesToString (escapeLoop (ops.Sprint tv.Value)) := by
      unfold attributeString attributeStep
      simp [h, hm]
    constructor
    · intro s j
      rw [attributeStep_eq, hs]
      by_cases hj : j > 0 <;> simp [hj]
    · rw [Rdns_to_String_single, hs]

/-- C4 at the e-mail address OID 1.2.840.113549.1.9.1 with string values: `x,y`
DER-encodes as a PrintableString and `x@y` as a UTF8String, and both are written
in hexadecimal without escaping the comma; the bytes `x`, `,`, `0xff` are not
valid UTF-8, `asn1.Marshal` fails, and the value is written escaped, the byte
`0xff` as U+FFFD. -/
theorem Rdns_to_String_unknown_oid_witness :
    attributeTypeNames.lookup (ObjectIdentifier.String [1, 2, 840, 113549, 1, 9, 1]) = none ∧
    Rdns_to_String stringOps [[⟨[1, 2, 840, 113549, 1, 9, 1], str "x,y"⟩]]
      = str "1.2.840.113549.1.9.1=#1303782c79" ∧
    Rdns_to_String stringOps [[⟨[1, 2, 840, 113549, 1, 9, 1], str "x@y"⟩]]
      = str "1.2.840.113549.1.9.1=#0c03784079" ∧
    stringOps.Marshal [0x78, 0x2C, 0xFF] = Except.error () ∧
    Rdns_to_String stringOps [[⟨[1, 2, 840, 113549, 1, 9, 1], [0x78, 0x2C, 0xFF]⟩]]
      = str "1.2.840.113549.1.9.1=x\\," ++ [0xEF, 0xBF, 0xBD] :=
  ⟨by decide,
   (((Rdns_to_String_unknown_oid stringOps ⟨[1, 2, 840, 113549, 1, 9, 1], str "x,y"⟩
      (by decide)).1 _ rfl).2.1).trans (by decide),
   (((Rdns_to_String_unknown_oid stringOps ⟨[1, 2, 840, 113549, 1, 9, 1], str "x@y"⟩
      (by decide)).1 _ rfl).2.1).trans (by decide),
   rfl,
   (((Rdns_to_String_unknown_oid stringOps ⟨[1, 2, 840, 113549, 1, 9, 1], [0x78, 0x2C, 0xFF]⟩
      (by decide)).2 () rfl).2).trans (by decide)⟩

/-! ## Lemmas on the push worker -/

theorem deliver_all_ok (endpoint : String) (rs : List String) :
    deliver endpoint rs (List.replicate rs.length (some 200))
      = (rs.map (Event.SendMessage endpoint), true) := by
  induction rs with
  | nil => rfl
  | cons r rs ih =>
    simp only [deliver, List.length_cons, List.replicate_succ, List.head?_cons, Option.join,
      List.tail_cons, ih, List.map_cons]
    simp [is2xx]

theorem successCycle_eq (rs : List String) (w : Worker) (hp : w.phase = Phase.IDLE)
    (hv : w.sub.Verified = true) (hne : rs ≠ [])
    (hmax : (rs.length : Int) ≤ w.sub.MaxMessages) :
    successCycle rs w
      = { phase := Phase.IDLE
          sub := acked { w.sub with PendingAck := "ack" } rs 0 0
          batch := [] } := by
  have htake : rs.take w.sub.MaxMessages.toNat = rs := by
    apply List.take_of_length_le
    omega
  have hemp : rs.isEmpty = false := by
    cases rs with
    | nil => exact absurd rfl hne
    | cons _ _ => rfl
  obtain ⟨ph, sub, batch⟩ := w
  simp only at hp hv hmax htake
  subst hp
  simp [successCycle, run, step, okAnswers, hv, htake, hemp, deliver_all_ok]

theorem ackStep_eq (a : Answers) (batch : List String) (sub : QSub) (hs : a.stop = false) :
    ackStep a batch sub = acked sub batch a.now a.rate := by
  simp [ackStep, step, hs]

theorem ackSteps_offsets (steps : List (Answers × List String)) :
    ∀ (sub : QSub), (∀ p ∈ steps, p.1.stop = false) →
      (steps.foldl (fun s p => ackStep p.1 p.2 s) sub).NextOffset
          = sub.NextOffset + ((steps.map fun p => p.2.length).sum : Nat) ∧
      (steps ≠ [] →
        (steps.foldl (fun s p => ackStep p.1 p.2 s) sub).Offset
          = sub.NextOffset + ((steps.map fun p => p.2.length).sum : Nat)) := by
  induction steps with
  | nil => intro sub _; simp
  | cons p rest ih =>
    intro sub hs
    have hp := ackStep_eq p.1 p.2 sub (hs p (List.mem_cons_self _ _))
    have ih1 := ih (ackStep p.1 p.2 sub) (fun q hq => hs q (List.mem_cons_of_mem _ hq))
    have hno : (ackStep p.1 p.2 sub).NextOffset = sub.NextOffset + p.2.length := by
      rw [hp]; rfl
    have hoff : (ackStep p.1 p.2 sub).Offset = sub.NextOffset + p.2.length := by
      rw [hp]; rfl
    simp only [List.foldl_cons, List.map_cons, List.sum_cons]
    constructor
    · rw [ih1.1, hno]
      push_cast
      omega
    · intro _
      cases rest with
      | nil => simp [hoff]
      | cons q rest2 =>
        rw [ih1.2 (by simp), hno]
        push_cast
        omega

theorem successCycles_offsets (batches : List (List String)) :
    ∀ (w : Worker), w.phase = Phase.IDLE → w.sub.Verified = true →
      (∀ rs ∈ batches, rs ≠ [] ∧ (rs.length : Int) ≤ w.sub.MaxMessages) →
      (successCycles batches w).sub.NextOffset
          = w.sub.NextOffset + ((batches.map List.length).sum : Nat) ∧
      (batches ≠ [] →
        (successCycles batches w).sub.Offset
          = w.sub.NextOffset + ((batches.map List.length).sum : Nat)) := by
  induction batches with
  | nil => intro w _ _ _; simp [successCycles]
  | cons rs rest ih =>
    intro w hp hv hb
    have hrs := hb rs (List.mem_cons_self _ _)
    have hc := successCycle_eq rs w hp hv hrs.1 hrs.2
    have hstep : successCycles (rs :: rest) w = successCycles rest (successCycle rs w) := rfl
    have ih1 := ih (successCycle rs w) (by rw [hc]) (by rw [hc]; exact hv) (by
      intro r hr
      rw [hc]
      exact hb r (List.mem_cons_of_mem _ hr))
    rw [hstep]
    have hno : (successCycle rs w).sub.NextOffset = w.sub.NextOffset + rs.length := by
      rw [hc]; rfl
    have hoff : (successCycle rs w).sub.Offset = w.sub.NextOffset + rs.length := by
      rw [hc]; rfl
    simp only [List.map_cons, List.sum_cons]
    constructor
    · rw [ih1.1, hno]
      push_cast
      omega
    · intro _
      cases rest with
      | nil => simp [successCycles, hoff]
      | cons r2 rest2 =>
        rw [ih1.2 (by simp), hno]
        push_cast
        omega

/-! ## The claims on the push worker -/

/-- C5: for every sequence of N successful delivery batches of sizes s1..sN
applied through the ACKED step to a subscription that starts with
`offset = next_offset = 0`, `offset` after the N-th batch is s1 + ... + sN. This
holds for the ACKED step taken N times under any answers without a stop signal,
and for N full cycles IDLE, CONSUMING, DELIVERING, ACKED of a verified
subscription whose `max_messages` no batch exceeds, where `next_offset` has the
same value. In the scenario of five messages with `max_messages = 3` and an
endpoint that always returns 200, `offset` is 3 after the first cycle and 5
after the second. -/
theorem offset_tracks_acknowledged :
    (∀ (sub : QSub) (steps : List (Answers × List String)),
      (∀ p ∈ steps, p.1.stop = false) → sub.Offset = 0 → sub.NextOffset = 0 →
      (steps.foldl (fun s p => ackStep p.1 p.2 s) sub).Offset
        = ((steps.map fun p => p.2.length).sum : Nat)) ∧
    (∀ (batches : List (List String)) (w : Worker),
      w.phase = Phase.IDLE → w.sub.Verified = true →
      (∀ rs ∈ batches, rs ≠ [] ∧ (rs.length : Int) ≤ w.sub.MaxMessages) →
      w.sub.Offset = 0 → w.sub.NextOffset = 0 →
      (successCycles batches w).sub.Offset = ((batches.map List.length).sum : Nat) ∧
      (successCycles batches w).sub.NextOffset = ((batches.map List.length).sum : Nat)) ∧
    (simulate scenarioLog 4 (startWorker scenarioSub)).phase = Phase.IDLE ∧
    (simulate scenarioLog 4 (startWorker scenarioSub)).sub.Offset = 3 ∧
    (simulate scenarioLog 8 (startWorker scenarioSub)).phase = Phase.IDLE ∧
    (simulate scenarioLog 8 (startWorker scenarioSub)).sub.Offset = 5 := by
  refine ⟨?_, ?_, by decide, by decide, by decide, by decide⟩
  · intro sub steps hs hoffset hnext
    obtain ⟨_, h2⟩ := ackSteps_offsets steps sub hs
    cases steps with
    | nil => simpa using hoffset
    | cons p rest => rw [h2 (by simp), hnext]; simp
  · intro batches w hphase hverified hbatches hoffset hnext
    obtain ⟨h1, h2⟩ := successCycles_offsets batches w hphase hverified hbatches
    constructor
    · cases batches with
      | nil => simpa [successCycles] using hoffset
      | cons rs rest => rw [h2 (by simp), hnext]; simp
    · rw [h1, hnext]; simp

/-- C5 at batches of 3 and then 2 records: the ACKED step taken twice, and two
full cycles of the worker, both leave `offset` at 3 + 2. -/
theorem offset_tracks_acknowledged_witness :
    ([(okAnswers [], ["m0", "m1", "m2"]), (okAnswers [], ["m3", "m4"])].foldl
        (fun s p => ackStep p.1 p.2 s) scenarioSub).Offset = ((3 + 2 : Nat) : Int) ∧
    (successCycles [["m0", "m1", "m2"], ["m3", "m4"]] (startWorker scenarioSub)).sub.Offset
      = ((3 + 2 : Nat) : Int) ∧
    (successCycles [["m0", "m1", "m2"]] (startWorker scenarioSub)).sub.Offset
      = ((3 : Nat) : Int) :=
  ⟨offset_tracks_acknowledged.1 scenarioSub
      [(okAnswers [], ["m0", "m1", "m2"]), (okAnswers [], ["m3", "m4"])]
      (by decide) rfl rfl,
   (offset_tracks_acknowledged.2.1 [["m0", "m1", "m2"], ["m3", "m4"]]
      (startWorker scenarioSub) rfl rfl (by decide) rfl rfl).1,
   (offset_tracks_acknowledged.2.1 [["m0", "m1", "m2"]]
      (startWorker scenarioSub) rfl rfl (by decide) rfl rfl).1⟩

theorem deliver_ok_iff (endpoint : String) (rs : List String) (sts : List (Option Nat)) :
    (deliver endpoint rs sts).2 = true →
      (deliver endpoint rs sts).1 = rs.map (Event.SendMessage endpoint) ∧
      ∀ i, i < rs.length → is2xx sts[i]?.join = true := by
  induction rs generalizing sts with
  | nil => intro _; simp [deliver]
  | cons r rs ih =>
    intro h
    unfold deliver at h ⊢
    by_cases hs : is2xx sts.head?.join = true
    · simp only [hs, if_true] at h ⊢
      obtain ⟨h1, h2⟩ := ih sts.tail h
      refine ⟨by rw [h1]; rfl, ?_⟩
      intro i hi
      cases i with
      | zero =>
        cases sts with
        | nil => simpa using hs
        | cons s sts => simpa using hs
      | succ i =>
        have := h2 i (by simpa using hi)
        cases sts with
        | nil => simpa using this
        | cons s sts => simpa using this
    · rw [if_neg hs] at h
      exact absurd h (by simp)

/-- C6 as the spec states it, refuted on the worker of section 4.3: a worker
started on a subscription with `next_offset = 0` whose `Consume` fails with
`ErrOffsetOff` while the broker's minimum offset is 5 has `next_offset = 5` after
two steps, having sent no message at all; so offsets do not change only on
steps in which every record of a batch was delivered. -/
theorem offsets_only_on_delivery_counterexample :
    (startWorker scenarioSub).sub.NextOffset = 0 ∧
    (run [resyncAnswers] (startWorker scenarioSub)).1.phase = Phase.CONSUMING ∧
    (run [resyncAnswers, resyncAnswers] (startWorker scenarioSub)).1.sub.NextOffset = 5 ∧
    (run [resyncAnswers, resyncAnswers] (startWorker scenarioSub)).2
      = [Event.Consume "t" 0 true] ∧
    ¬ (∀ (a : Answers) (w : Worker),
        (step a w).1.sub.Offset ≠ w.sub.Offset ∨ (step a w).1.sub.NextOffset ≠ w.sub.NextOffset →
        w.phase = Phase.ACKED) := by
  refine ⟨by decide, by decide, by decide, by decide, ?_⟩
  intro h
  have := h resyncAnswers (run [resyncAnswers] (startWorker scenarioSub)).1 (by decide)
  exact absurd this (by decide)

/-- C6 amended: a stop, a step in which a record of the batch failed to be
delivered, a retry and an abandonment (retry disabled or ack deadline passed)
leave `offset` and `next_offset` as they were, and a retry keeps the batch, so
that it covers the same offsets. The offsets change only on the ACKED step, which
is entered only by a DELIVERING step in which every record of the batch was
delivered with a 2xx answer, and on the CONSUMING step in which `Consume` fails
with `ErrOffsetOff` while `next_offset` is below the broker's minimum offset:
that step sets `next_offset` to the minimum and leaves `offset` alone. -/
theorem offsets_change_only_on_ack_or_resync (a : Answers) (w : Worker) :
    (a.stop = true →
      (step a w).1.sub.Offset = w.sub.Offset ∧ (step a w).1.sub.NextOffset = w.sub.NextOffset) ∧
    (w.phase = Phase.DELIVERING → (deliver w.sub.PushEndpoint w.batch a.sendStatus).2 = false →
      (step a w).1.sub.Offset = w.sub.Offset ∧ (step a w).1.sub.NextOffset = w.sub.NextOffset ∧
      (step a w).1.batch = w.batch ∧
      (a.stop = false → (step a w).1.phase = Phase.AWAITING_RETRY)) ∧
    (w.phase = Phase.AWAITING_RETRY →
      (step a w).1.sub.Offset = w.sub.Offset ∧ (step a w).1.sub.NextOffset = w.sub.NextOffset ∧
      (a.stop = false → w.sub.RetPolicy = "linear" → a.deadlineElapsed = false →
        (step a w).1.phase = Phase.DELIVERING ∧ (step a w).1.batch = w.batch) ∧
      (a.stop = false → (w.sub.RetPolicy ≠ "linear" ∨ a.deadlineElapsed = true) →
        (step a w).1.phase = Phase.IDLE ∧ (step a w).1.sub.PendingAck = "")) ∧
    ((step a w).1.sub.Offset ≠ w.sub.Offset ∨ (step a w).1.sub.NextOffset ≠ w.sub.NextOffset →
      (w.phase = Phase.ACKED ∧ a.stop = false ∧
        (step a w).1.sub.Offset = w.sub.NextOffset + w.batch.length ∧
        (step a w).1.sub.NextOffset = w.sub.NextOffset + w.batch.length) ∨
      (w.phase = Phase.CONSUMING ∧ a.stop = false ∧ a.consumed = ConsumeResult.offsetOff ∧
        w.sub.NextOffset < a.minOffset ∧
        (step a w).1.sub.NextOffset = a.minOffset ∧
        (step a w).1.sub.Offset = w.sub.Offset ∧
        (step a w).2 = [Event.Consume w.sub.Topic w.sub.NextOffset true])) ∧
    ((step a w).1.phase = Phase.ACKED →
      w.phase = Phase.DELIVERING ∧ a.stop = false ∧ (step a w).1.batch = w.batch ∧
      (step a w).2 = w.batch.map (Event.SendMessage w.sub.PushEndpoint) ∧
      ∀ i, i < w.batch.length → is2xx a.sendStatus[i]?.join = true) := by
  obtain ⟨ph, sub, batch⟩ := w
  refine ⟨?_, ?_, ?_, ?_, ?_⟩
  · intro hs
    cases ph <;> simp [step, hs]
  · intro hp hd
    simp only at hp hd
    subst hp
    by_cases hs : a.stop = true <;> simp [step, hs, hd]
  · intro hp
    simp only at hp
    subst hp
    by_cases hs : a.stop = true
    · simp [step, hs]
    · by_cases hr : sub.RetPolicy = "linear" ∧ a.deadlineElapsed = false
      · simp [step, hs, hr]
      · simp only [step, hs, hr]
        simp only [not_and, Bool.not_eq_false] at hr
        simp
        intro h1
        exact hr h1
  · intro hch
    by_cases hs : a.stop = true
    · cases ph <;> simp [step, hs] at hch
    · cases ph
      · by_cases hv : sub.Verified = true
        · simp [step, hs, hv] at hch
        · by_cases hx : is2xx a.verifyStatus = true <;> simp [step, hs, hv, hx] at hch
      · right
        cases hc : a.consumed with
        | records rs =>
          by_cases he : (rs.take sub.MaxMessages.toNat).isEmpty = true <;>
            simp [step, hs, hc, he] at hch
        | offsetOff =>
          by_cases hm : sub.NextOffset < a.minOffset
          · simp [step, hs, hc, hm]
          · simp [step, hs, hc, hm] at hch
        | brokerError => simp [step, hs, hc] at hch
      · by_cases hd : (deliver sub.PushEndpoint batch a.sendStatus).2 = true <;>
          simp [step, hs, hd] at hch
      · left
        simp [step, hs, acked]
      · by_cases hr : sub.RetPolicy = "linear" ∧ a.deadlineElapsed = false <;>
          simp [step, hs, hr] at hch
      · simp [step] at hch
  · intro hph
    by_cases hs : a.stop = true
    · cases ph <;> simp [step, hs] at hph
    · cases ph
      · by_cases hv : sub.Verified = true
        · simp [step, hs, hv] at hph
        · by_cases hx : is2xx a.verifyStatus = true <;> simp [step, hs, hv, hx] at hph
      · cases hc : a.consumed with
        | records rs =>
          by_cases he : (rs.take sub.MaxMessages.toNat).isEmpty = true <;>
            simp [step, hs, hc, he] at hph
        | offsetOff =>
          by_cases hm : sub.NextOffset < a.minOffset <;> simp [step, hs, hc, hm] at hph
        | brokerError => simp [step, hs, hc] at hph
      · by_cases hd : (deliver sub.PushEndpoint batch a.sendStatus).2 = true
        · obtain ⟨h1, h2⟩ := deliver_ok_iff _ _ _ hd
          refine ⟨rfl, by simpa using hs, by simp [step, hs, hd],
            by simpa [step, hs, hd] using h1, h2⟩
        · simp [step, hs, hd] at hph
      · simp [step, hs] at hph
      · by_cases hr : sub.RetPolicy = "linear" ∧ a.deadlineElapsed = false <;>
          simp [step, hs, hr] at hph
      · simp [step] at hph

/-- C6 amended, at a batch of two records whose second delivery is answered
with status 500: the offsets stay 0 and 3 and the same batch waits for its retry. -/
theorem offsets_change_only_on_ack_or_resync_witness :
    (deliver deliveringWorker.sub.PushEndpoint deliveringWorker.batch
        failingAnswers.sendStatus).2 = false ∧
    (step failingAnswers deliveringWorker).1.sub.Offset = 0 ∧
    (step failingAnswers deliveringWorker).1.sub.NextOffset = 3 ∧
    (step failingAnswers deliveringWorker).1.batch = ["m3", "m4"] ∧
    (step failingAnswers deliveringWorker).1.phase = Phase.AWAITING_RETRY :=
  ⟨by decide,
   ((offsets_change_only_on_ack_or_resync failingAnswers deliveringWorker).2.1 rfl
      (by decide)).1,
   ((offsets_change_only_on_ack_or_resync failingAnswers deliveringWorker).2.1 rfl
      (by decide)).2.1,
   ((offsets_change_only_on_ack_or_resync failingAnswers deliveringWorker).2.1 rfl
      (by decide)).2.2.1,
   ((offsets_change_only_on_ack_or_resync failingAnswers deliveringWorker).2.1 rfl
      (by decide)).2.2.2 rfl⟩

theorem step_gateHolds (a : Answers) (w : Worker) (h : gateHolds w) :
    gateHolds (step a w).1 := by
  obtain ⟨ph, sub, batch⟩ := w
  unfold gateHolds at h ⊢
  by_cases hs : a.stop = true
  · cases ph <;> simp [step, hs]
  · cases ph
    · by_cases hv : sub.Verified = true
      · simp [step, hs, hv]
      · by_cases hx : is2xx a.verifyStatus = true <;> simp [step, hs, hv, hx]
    · have hv : sub.Verified = true := by simpa using h
      cases hc : a.consumed with
      | records rs =>
        by_cases he : (rs.take sub.MaxMessages.toNat).isEmpty = true <;>
          simp [step, hs, hc, he, hv]
      | offsetOff =>
        by_cases hm : sub.NextOffset < a.minOffset <;> simp [step, hs, hc, hm]
      | brokerError => simp [step, hs, hc]
    · have hv : sub.Verified = true := by simpa using h
      by_cases hd : (deliver sub.PushEndpoint batch a.sendStatus).2 = true <;>
        simp [step, hs, hd, hv]
    · simp [step, hs]
    · have hv : sub.Verified = true := by simpa using h
      by_cases hr : sub.RetPolicy = "linear" ∧ a.deadlineElapsed = false <;>
        simp [step, hs, hr, hv]
    · simp [step]

theorem run_gateHolds (as : List Answers) (w : Worker) (h : gateHolds w) :
    gateHolds (run as w).1 := by
  induction as generalizing w with
  | nil => exact h
  | cons a rest ih => exact ih _ (step_gateHolds a w h)

theorem step_unverified_events (a : Answers) (w : Worker) (h : gateHolds w)
    (hv : w.sub.Verified = false) :
    ∀ e ∈ (step a w).2, e.isSendMessage = false ∧ e.isVerification = true := by
  obtain ⟨ph, sub, batch⟩ := w
  simp only at hv
  unfold gateHolds at h
  simp only [hv] at h
  rcases h with h | h | h
  · subst h
    by_cases hs : a.stop = true
    · simp [step, hs]
    · by_cases hx : is2xx a.verifyStatus = true <;>
        simp [step, hs, hv, hx, Event.isSendMessage, Event.isVerification]
  · subst h
    simp [step]
  · exact absurd h (by simp)

theorem step_verified_cause (a : Answers) (w : Worker)
    (h : (step a w).1.sub.Verified = true) :
    w.sub.Verified = true ∨
      (w.phase = Phase.IDLE ∧ a.stop = false ∧ is2xx a.verifyStatus = true) := by
  obtain ⟨ph, sub, batch⟩ := w
  by_cases hv : sub.Verified = true
  · left; exact hv
  · right
    by_cases hs : a.stop = true
    · cases ph <;> simp [step, hs, hv] at h
    · cases ph
      · by_cases hx : is2xx a.verifyStatus = true
        · exact ⟨rfl, by simpa using hs, hx⟩
        · simp [step, hs, hv, hx] at h
      · cases hc : a.consumed with
        | records rs =>
          by_cases he : (rs.take sub.MaxMessages.toNat).isEmpty = true <;>
            simp [step, hs, hc, he, hv] at h
        | offsetOff =>
          by_cases hm : sub.NextOffset < a.minOffset <;> simp [step, hs, hc, hm, hv] at h
        | brokerError => simp [step, hs, hc, hv] at h
      · by_cases hd : (deliver sub.PushEndpoint batch a.sendStatus).2 = true <;>
          simp [step, hs, hd, hv] at h
      · simp [step, hs, acked, hv] at h
      · by_cases hr : sub.RetPolicy = "linear" ∧ a.deadlineElapsed = false <;>
          simp [step, hs, hr, hv] at h
      · simp [step, hv] at h

theorem delivery_after_verification (w : Worker) (r : String) (hp : w.phase = Phase.IDLE)
    (hv : w.sub.Verified = true) (hmax : 1 ≤ w.sub.MaxMessages) :
    (run [okAnswers [r], okAnswers [r], okAnswers [r]] w).2
      = [Event.Consume w.sub.Topic w.sub.NextOffset true,
         Event.SendMessage w.sub.PushEndpoint r] := by
  have htake : [r].take w.sub.MaxMessages.toNat = [r] := by
    apply List.take_of_length_le
    simp only [List.length_singleton]
    omega
  obtain ⟨ph, sub, batch⟩ := w
  simp only at hp hv hmax htake
  subst hp
  simp [run, step, okAnswers, hv, htake, deliver, is2xx]

theorem reached_gateHolds (sub : QSub) (as : List Answers) : gateHolds (reached sub as) :=
  run_gateHolds as (startWorker sub) (Or.inl rfl)

/-- C7: in every state the worker reaches from its start, while the
subscription's `verified` flag is false a step sends no `SendMessage`: all it
does is the verification request and the wait before the next one. The flag
becomes true only by a 2xx answer to `SendVerification` in IDLE, which leaves
the worker in IDLE with the flag set; from there the next cycle consumes and
delivers. -/
theorem no_delivery_before_verification (sub : QSub) (as : List Answers) (a : Answers) :
    ((reached sub as).sub.Verified = false →
      ∀ e ∈ (step a (reached sub as)).2,
        e.isSendMessage = false ∧ e.isVerification = true) ∧
    ((reached sub as).sub.Verified = false → (reached sub as).phase = Phase.IDLE →
      a.stop = false → is2xx a.verifyStatus = true →
      (step a (reached sub as)).2
          = [Event.SendVerification (reached sub as).sub.PushEndpoint
              (reached sub as).sub.VerificationHash] ∧
      (step a (reached sub as)).1.sub.Verified = true ∧
      (step a (reached sub as)).1.phase = Phase.IDLE ∧
      (1 ≤ (reached sub as).sub.MaxMessages → ∀ r : String,
        Event.SendMessage (reached sub as).sub.PushEndpoint r
          ∈ (run [okAnswers [r], okAnswers [r], okAnswers [r]]
              (step a (reached sub as)).1).2)) ∧
    ((reached sub as).sub.Verified = false →
      (step a (reached sub as)).1.sub.Verified = true →
      (reached sub as).phase = Phase.IDLE ∧ a.stop = false ∧ is2xx a.verifyStatus = true) := by
  refine ⟨?_, ?_, ?_⟩
  · intro hv
    exact step_unverified_events a _ (reached_gateHolds sub as) hv
  · intro hv hp hs hx
    have hstep : step a (reached sub as)
        = ({ reached sub as with sub := { (reached sub as).sub with Verified := true } },
            [Event.SendVerification (reached sub as).sub.PushEndpoint
              (reached sub as).sub.VerificationHash]) := by
      generalize reached sub as = w at hv hp
      obtain ⟨ph, s, batch⟩ := w
      simp only at hv hp
      subst hp
      simp [step, hs, hv, hx]
    refine ⟨by rw [hstep], by rw [hstep], by rw [hstep]; exact hp, ?_⟩
    intro hmax r
    have hd := delivery_after_verification (step a (reached sub as)).1 r
      (by rw [hstep]; exact hp) (by rw [hstep]) (by rw [hstep]; exact hmax)
    rw [hd, hstep]
    simp
  · intro hv hv2
    rcases step_verified_cause a _ hv2 with h | h
    · rw [hv] at h
      exact absurd h (by simp)
    · exact h

/-- C7 on the subscription of the scenario with an endpoint that is not yet
verified: a rejected verification request is followed by an accepted one, after
which the flag is set and the record handed out by the broker is delivered. -/
theorem no_delivery_before_verification_witness :
    (reached unverifiedSub [rejectAnswers]).sub.Verified = false ∧
    (reached unverifiedSub [rejectAnswers]).phase = Phase.IDLE ∧
    (step (okAnswers []) (reached unverifiedSub [rejectAnswers])).2
      = [Event.SendVerification "https://example.org/push" "h"] ∧
    (step (okAnswers []) (reached unverifiedSub [rejectAnswers])).1.sub.Verified = true ∧
    Event.SendMessage "https://example.org/push" "m0"
      ∈ (run [okAnswers ["m0"], okAnswers ["m0"], okAnswers ["m0"]]
          (step (okAnswers []) (reached unverifiedSub [rejectAnswers])).1).2 :=
  ⟨by decide, by decide,
   ((no_delivery_before_verification unverifiedSub [rejectAnswers] (okAnswers [])).2.1
      (by decide) (by decide) rfl (by decide)).1,
   ((no_delivery_before_verification unverifiedSub [rejectAnswers] (okAnswers [])).2.1
      (by decide) (by decide) rfl (by decide)).2.1,
   ((no_delivery_before_verification unverifiedSub [rejectAnswers] (okAnswers [])).2.1
      (by decide) (by decide) rfl (by decide)).2.2.2 (by decide) "m0"⟩


end ArgoMessaging
